import Mathlib

/-!
Shallow embedding of the E-Goat layered transport manager, its connection
implementations, the signaling hub and the message-history endpoint,
translated from the Go sources under internal/transport, internal/signaling,
internal/storage and cmd/messanger.  Machine integers are modelled as Int
with Go truncated division where it matters; Go channels are modelled as
bounded lists plus a closed flag (closing a closed channel is a runtime
panic, modelled through Except); Go maps are modelled as association lists.
-/

namespace EGoat

/-- ConnectionStatus from internal/transport/connection.go. -/
inductive ConnectionStatus
  | connecting
  | connected
  | disconnected
  | failed
deriving DecidableEq, Repr

/-- ConnectionType from internal/transport/connection.go. -/
inductive ConnectionType
  | webrtcStun
  | webrtcTurn
  | webSocketDirect
  | httpPolling
  | lanBroadcast
deriving DecidableEq, Repr

/-- Message from internal/transport/connection.go (metadata omitted: no
claim touches it; Data held as a String standing for the byte slice). -/
structure Message where
  from_ : String
  to_ : String
  type : String
  data : String
  timestamp : Int
deriving DecidableEq, Repr

/-- A Go runtime panic relevant to the modelled code. -/
inductive GoPanic
  | closeOfClosedChannel
deriving DecidableEq, Repr

/-! ## WebRTC TURN connection (internal/transport/webrtc_turn.go) -/

/-- The latency→quality bucket map inside WebRTCTURNConnection.handlePong
(latency in whole milliseconds, as produced by Duration.Milliseconds()). -/
def turnQualityOfLatency (latencyMs : Int) : Int :=
  if latencyMs < 100 then 80
  else if latencyMs < 200 then 70
  else if latencyMs < 300 then 60
  else if latencyMs < 500 then 40
  else 20

/-- The relayed-media quality mapping as the spec's table states it
(row Relayed-media: ≤20 → 80, ≤50 → 80, ≤100 → 70, ≤200 → 60,
≤500 → 40, >500 → 20).  Written from the spec's words, to be compared
with `turnQualityOfLatency`, which is written from the source. -/
def specTurnQualityOfLatency (latencyMs : Int) : Int :=
  if latencyMs ≤ 20 then 80
  else if latencyMs ≤ 50 then 80
  else if latencyMs ≤ 100 then 70
  else if latencyMs ≤ 200 then 60
  else if latencyMs ≤ 500 then 40
  else 20

/-- The amended relayed-media quality mapping: the bucket bounds the code
actually uses, phrased with inclusive millisecond bounds
(≤99 → 80, ≤199 → 70, ≤299 → 60, ≤499 → 40, otherwise 20). -/
def amendedTurnQualityOfLatency (latencyMs : Int) : Int :=
  if latencyMs ≤ 99 then 80
  else if latencyMs ≤ 199 then 70
  else if latencyMs ≤ 299 then 60
  else if latencyMs ≤ 499 then 40
  else 20

/-- Mutable state of WebRTCTURNConnection touched by handlePong. -/
structure TURNConnState where
  status : ConnectionStatus
  latencyNs : Int
  quality : Int
deriving DecidableEq, Repr

/-- WebRTCTURNConnection.handlePong: latency := now − echoed timestamp
(nanoseconds), then quality recomputed from latency.Milliseconds(). -/
def WebRTCTURNConnection.handlePong (c : TURNConnState) (nowNs timestamp : Int) :
    TURNConnState :=
  let lat := nowNs - timestamp
  { c with latencyNs := lat, quality := turnQualityOfLatency (Int.tdiv lat 1000000) }

/-! ## HTTP polling connection (internal/transport/http_polling.go) -/

/-- Mutable state of HTTPPollingConnection.  The `messages` channel
(capacity 100) is a list plus a closed flag; `closeChan` is a closed flag. -/
structure PollConnState where
  status : ConnectionStatus
  pollErrors : Nat
  lastMsgTime : Int
  room : String
  messages : List Message
  messagesClosed : Bool
  closeChanClosed : Bool
  latencyMs : Int
  quality : Int
deriving DecidableEq, Repr

/-- HTTPPollingConnection.recordPollError: increment pollErrors; if the
count is then strictly greater than 5, set status to Failed. -/
def HTTPPollingConnection.recordPollError (c : PollConnState) : PollConnState :=
  let e := c.pollErrors + 1
  { c with pollErrors := e, status := if e > 5 then .failed else c.status }

/-- One JSON entry of a /history response, as decoded in
HTTPPollingConnection.poll. -/
structure PolledEntry where
  peerId : String
  text : String
  timestamp : Int
deriving DecidableEq, Repr

/-- The Message poll builds from a polled entry. -/
def mkChatMessage (e : PolledEntry) : Message :=
  { from_ := e.peerId, to_ := "", type := "chat", data := e.text,
    timestamp := e.timestamp }

/-- The non-blocking channel send `select case c.messages <- message:
default:` against the capacity-100 messages channel: some new buffer on
success, none when the buffer is full. -/
def tryEnqueue (buf : List Message) (m : Message) : Option (List Message) :=
  if buf.length < 100 then some (buf ++ [m]) else none

/-- The per-entry body of poll's `for _, msg := range polledMessages` loop:
skip entries not strictly newer than the since-cursor snapshot; otherwise
try to enqueue and, only on success, advance lastMsgTime to the entry's
timestamp when larger. -/
def HTTPPollingConnection.processEntry (snapshot : Int) (c : PollConnState)
    (e : PolledEntry) : PollConnState :=
  if e.timestamp > snapshot then
    match tryEnqueue c.messages (mkChatMessage e) with
    | some buf =>
        { c with messages := buf,
                 lastMsgTime :=
                   if e.timestamp > c.lastMsgTime then e.timestamp
                   else c.lastMsgTime }
    | none => c
  else c

/-- Outcome of one /history request in poll: the request itself failed
(request build error or client.Do error, before the error-count reset);
the response arrived but was unusable (non-200 status or JSON decode
failure, both after the reset); or a decoded entry list. -/
inductive FetchResult
  | transportFailure
  | badResponse (latMs : Int)
  | ok (latMs : Int) (entries : List PolledEntry)
deriving DecidableEq, Repr

/-- HTTPPollingConnection.updateQuality, translated from the source
(base by latency bucket, ±10 by poll rate, −10 per recorded poll error,
clamped to 0..100). -/
def HTTPPollingConnection.updateQuality (pollRateMs : Int) (c : PollConnState) :
    PollConnState :=
  let base : Int :=
    if c.latencyMs < 100 then 70
    else if c.latencyMs < 500 then 60
    else if c.latencyMs < 1000 then 50
    else 30
  let base := if pollRateMs ≤ 1000 then base + 10
              else if pollRateMs ≥ 5000 then base - 10 else base
  let base := if c.pollErrors > 0 then base - (c.pollErrors : Int) * 10 else base
  let base := if base < 0 then 0 else if base > 100 then 100 else base
  { c with quality := base }

/-- HTTPPollingConnection.poll: on transport failure record a poll error;
otherwise update latency and reset the error count, then either record a
poll error (bad response) or process the decoded entries against the
since-cursor snapshot taken at entry, finishing with updateQuality. -/
def HTTPPollingConnection.poll (pollRateMs : Int) (c : PollConnState)
    (fetched : FetchResult) : PollConnState :=
  let snapshot := c.lastMsgTime
  match fetched with
  | .transportFailure => HTTPPollingConnection.recordPollError c
  | .badResponse latMs =>
      HTTPPollingConnection.recordPollError
        { c with latencyMs := latMs, pollErrors := 0 }
  | .ok latMs entries =>
      let c1 := { c with latencyMs := latMs, pollErrors := 0 }
      let c2 := entries.foldl (HTTPPollingConnection.processEntry snapshot) c1
      HTTPPollingConnection.updateQuality pollRateMs c2

/-- HTTPPollingConnection.Close: set status to Disconnected, then
close(closeChan) and close(messages); closing an already-closed Go channel
panics. -/
def HTTPPollingConnection.Close (c : PollConnState) :
    Except GoPanic PollConnState :=
  let c1 := { c with status := .disconnected }
  if c1.closeChanClosed then .error .closeOfClosedChannel
  else
    let c2 := { c1 with closeChanClosed := true }
    if c2.messagesClosed then .error .closeOfClosedChannel
    else .ok { c2 with messagesClosed := true }

/-- Result of a send call as the claims classify it. -/
inductive SendOutcome
  | sent
  | notEstablished
  | httpFailure
deriving DecidableEq, Repr

/-- HTTPPollingConnection.Send: fail unless the status is Connected,
otherwise POST to the send endpoint (outcome supplied as `postOk`). -/
def HTTPPollingConnection.Send (c : PollConnState) (postOk : Bool) : SendOutcome :=
  if c.status ≠ .connected then .notEstablished
  else if postOk then .sent else .httpFailure

/-! ## WebSocket direct connection (internal/transport/websocket_direct.go) -/

/-- Mutable state of WebSocketDirectConnection touched by Close and Send:
the underlying socket (present or nil), the status, and the messages
channel's closed flag. -/
structure WSDirectConnState where
  wsPresent : Bool
  status : ConnectionStatus
  messages : List Message
  messagesClosed : Bool
deriving DecidableEq, Repr

/-- WebSocketDirectConnection.Close: close and nil the socket if present,
set status to Disconnected, then close(messages) — a panic if the
messages channel is already closed. -/
def WebSocketDirectConnection.Close (c : WSDirectConnState) :
    Except GoPanic WSDirectConnState :=
  let c1 := { c with wsPresent := false, status := .disconnected }
  if c1.messagesClosed then .error .closeOfClosedChannel
  else .ok { c1 with messagesClosed := true }

/-- WebSocketDirectConnection.Send: fail unless status is Connected and the
socket is present, otherwise WriteJSON (outcome supplied as `writeOk`). -/
def WebSocketDirectConnection.Send (c : WSDirectConnState) (writeOk : Bool) :
    SendOutcome :=
  if c.status ≠ .connected ∨ ¬ c.wsPresent then .notEstablished
  else if writeOk then .sent else .httpFailure

/-! ## Layered connection manager (internal/transport/connection.go) -/

/-- A connection as the manager observes it through the Connection
interface: an identity (Go interface-pointer identity), its Type(), and
the answers its Status()/Quality()/Latency()/Send() calls return. -/
structure Conn where
  id : Nat
  ctype : ConnectionType
  status : ConnectionStatus
  quality : Int
  latencyMs : Int
  sendOk : Bool
deriving DecidableEq, Repr

/-- The Go map update `m[k] = v` on an association list. -/
def mapSet (m : List (ConnectionType × Conn)) (k : ConnectionType) (v : Conn) :
    List (ConnectionType × Conn) :=
  match m with
  | [] => [(k, v)]
  | (k0, v0) :: rest =>
      if k0 = k then (k, v) :: rest else (k0, v0) :: mapSet rest k v

/-- The Go map delete `delete(m, k)` on an association list. -/
def mapDel (m : List (ConnectionType × Conn)) (k : ConnectionType) :
    List (ConnectionType × Conn) :=
  m.filter (fun p => p.1 ≠ k)

/-- PeerConnection from internal/transport/connection.go: the per-type
connection map, the primary, and the rolling metric histories. -/
structure PeerConnection where
  peerId : String
  connections : List (ConnectionType × Conn)
  primary : Option Conn
  isConnected : Bool
  latencyHistory : List Int
  qualityHistory : List Int
deriving DecidableEq, Repr

/-- Callback invocations the manager makes (on_connection /
on_disconnect), recorded as events. -/
inductive Event
  | onConnection (peerId : String) (c : Conn)
  | onDisconnect (peerId : String) (t : ConnectionType)
deriving DecidableEq, Repr

/-- LayeredConnectionManager.setPrimaryConnection: install the connection
as primary, record it in the per-type map, mark the peer connected, and
fire on_connection. -/
def LayeredConnectionManager.setPrimaryConnection (pc : PeerConnection)
    (conn : Conn) : PeerConnection × List Event :=
  ({ pc with primary := some conn,
             connections := mapSet pc.connections conn.ctype conn,
             isConnected := true },
   [Event.onConnection pc.peerId conn])

/-- LayeredConnectionManager.addBackupConnection: record the connection in
the per-type map (replacing a prior backup of the same type). -/
def LayeredConnectionManager.addBackupConnection (pc : PeerConnection)
    (conn : Conn) : PeerConnection :=
  { pc with connections := mapSet pc.connections conn.ctype conn }

/-- One iteration of checkConnectionHealth's backup-selection loop: keep
the Connected entry whose type differs from the primary's and whose
quality strictly exceeds the best seen. -/
def scanStep (primaryType : ConnectionType) (acc : Int × Option Conn)
    (p : ConnectionType × Conn) : Int × Option Conn :=
  if p.1 ≠ primaryType ∧ p.2.status = .connected ∧ p.2.quality > acc.1
  then (p.2.quality, some p.2) else acc

/-- The backup-selection scan inside checkConnectionHealth, starting from
bestQuality = −1 and no candidate. -/
def bestBackupScan (entries : List (ConnectionType × Conn))
    (primaryType : ConnectionType) : Option Conn :=
  (entries.foldl (scanStep primaryType) ((-1 : Int), none)).2

/-- The failover block of checkConnectionHealth: when the primary is no
longer Connected, promote the best Connected backup (closing the old
primary and deleting its map entry, firing on_connection) or, with no
backup, mark the peer disconnected and fire on_disconnect. -/
def LayeredConnectionManager.failover (pc : PeerConnection) (prim : Conn) :
    PeerConnection × List Event :=
  if prim.status ≠ .connected then
    match bestBackupScan pc.connections prim.ctype with
    | some bb =>
        ({ pc with primary := some bb,
                   connections := mapDel pc.connections prim.ctype },
         [Event.onConnection pc.peerId bb])
    | none =>
        ({ pc with isConnected := false },
         [Event.onDisconnect pc.peerId prim.ctype])
  else (pc, [])

/-- The metrics block of checkConnectionHealth: append the current
primary's latency and quality to the rolling histories, trimmed to the
last 10 samples. -/
def updateHistories (pc : PeerConnection) : PeerConnection :=
  match pc.primary with
  | none => pc
  | some p =>
      let lh := pc.latencyHistory ++ [p.latencyMs]
      let qh := pc.qualityHistory ++ [p.quality]
      { pc with
          latencyHistory := if lh.length > 10 then lh.drop 1 else lh,
          qualityHistory := if qh.length > 10 then qh.drop 1 else qh }

/-- LayeredConnectionManager.checkConnectionHealth: nothing happens with
no primary; otherwise run the failover block, then the metrics block. -/
def LayeredConnectionManager.checkConnectionHealth (pc : PeerConnection) :
    PeerConnection × List Event :=
  match pc.primary with
  | none => (pc, [])
  | some prim =>
      let step := LayeredConnectionManager.failover pc prim
      (updateHistories step.1, step.2)

/-- The manager's peer map (LayeredConnectionManager.connections). -/
structure ManagerState where
  connections : List (String × PeerConnection)
deriving DecidableEq, Repr

/-- The result of LayeredConnectionManager.SendMessage, classified. -/
inductive ManagerSendResult
  | noRoute
  | notConnected
  | primarySend (r : SendOutcome)
deriving DecidableEq, Repr

/-- The abstract Send of a manager-held connection: the outcome its
concrete Send call would produce. -/
def Conn.send (c : Conn) : SendOutcome :=
  if c.status ≠ .connected then .notEstablished
  else if c.sendOk then .sent else .httpFailure

/-- LayeredConnectionManager.SendMessage: look up the PeerConnection (no
entry → "no connection to peer", the NoRoute error); read its primary
(nil → "no active connection to peer", the NotConnected error); otherwise
return primary.Send. -/
def LayeredConnectionManager.SendMessage (m : ManagerState) (peerId : String) :
    ManagerSendResult :=
  match m.connections.lookup peerId with
  | none => .noRoute
  | some pc =>
      match pc.primary with
      | none => .notConnected
      | some primary => .primarySend primary.send

/-- LayeredConnectionManager.ConnectToPeer: fail if an entry already
exists; otherwise insert an empty PeerConnection (the supervisor task is
launched separately). -/
def LayeredConnectionManager.ConnectToPeer (m : ManagerState) (peerId : String) :
    Except String ManagerState :=
  match m.connections.lookup peerId with
  | some _ => .error "already connected to peer"
  | none =>
      .ok { m with connections :=
              m.connections ++ [(peerId, { peerId := peerId, connections := [],
                                           primary := none, isConnected := false,
                                           latencyHistory := [],
                                           qualityHistory := [] })] }

/-- LayeredConnectionManager.removeConnection: close every held connection
of the peer entry and delete the entry; no callback fires. -/
def LayeredConnectionManager.removeConnection (m : ManagerState)
    (peerId : String) : ManagerState :=
  { m with connections := m.connections.filter (fun p => p.1 ≠ peerId) }

/-- What one factory's connection-attempt goroutine delivers to the
supervisor's collection loop: a connection that reached Connected (sent on
connChan) or an error (creation failure, a Failed status, or a skip/
timeout which the loop observes as ctx.Done / a missing message). -/
inductive AttemptOutcome
  | success (c : Conn)
  | failure
deriving DecidableEq, Repr

/-- One iteration of the supervisor's collection loop in
attemptConnections: a success becomes primary when none was seen yet
(via setPrimaryConnection) and a backup otherwise (via
addBackupConnection); a failure is only counted. -/
def collectStep (acc : PeerConnection × Option Conn × List Event)
    (o : AttemptOutcome) : PeerConnection × Option Conn × List Event :=
  match o with
  | .success c =>
      match acc.2.1 with
      | none =>
          let s := LayeredConnectionManager.setPrimaryConnection acc.1 c
          (s.1, some c, acc.2.2 ++ s.2)
      | some _ =>
          (LayeredConnectionManager.addBackupConnection acc.1 c,
           acc.2.1, acc.2.2)
  | .failure => acc

/-- The supervisor's collection loop in attemptConnections: the first
success becomes primary, later successes become backups, failures are
only counted. -/
def collectOutcomes (pc : PeerConnection) (outcomes : List AttemptOutcome) :
    PeerConnection × Option Conn × List Event :=
  outcomes.foldl collectStep (pc, none, [])

/-- The tail of LayeredConnectionManager.attemptConnections: run the
collection loop over the factory outcomes for the named peer; if no
connection ever succeeded, remove the PeerConnection entry (firing no
callback), otherwise store the updated entry back in the map. -/
def LayeredConnectionManager.attemptConnections (m : ManagerState)
    (peerId : String) (outcomes : List AttemptOutcome) :
    ManagerState × List Event :=
  match m.connections.lookup peerId with
  | none => (m, [])
  | some pc =>
      let r := collectOutcomes pc outcomes
      match r.2.1 with
      | none => (LayeredConnectionManager.removeConnection m peerId, r.2.2)
      | some _ =>
          ({ m with connections :=
               m.connections.map (fun p => if p.1 = peerId then (peerId, r.1) else p) },
           r.2.2)

/-! ## Signaling hub (internal/signaling/server.go, relay version with
join notification and targeted relay) -/

/-- A payload queued on a signaling client's send channel: either a raw
envelope forwarded verbatim, or the JSON-marshalled peer_joined
notification (the marshalled bytes are opaque to the hub). -/
inductive Payload
  | raw (s : String)
  | peerJoined (peerId room : String)
deriving DecidableEq, Repr

/-- A signaling Client: pointer identity `cid`, its peer id and room, the
capacity-256 send channel, and whether the hub closed its socket after a
full buffer on a broadcast. -/
structure SigClient where
  cid : Nat
  peerId : String
  room : String
  sendQueue : List Payload
  connClosed : Bool
deriving DecidableEq, Repr

/-- The non-blocking send to a client's capacity-256 send channel: append
on room, otherwise leave the queue unchanged (caller decides the drop
policy). -/
def sigTrySend (c : SigClient) (p : Payload) : Option SigClient :=
  if c.sendQueue.length < 256 then some { c with sendQueue := c.sendQueue ++ [p] }
  else none

/-- The targeted branch of Client.readPump: walk the room's members, and
at the first client whose peerID equals the target deliver the raw
envelope (dropped silently when its buffer is full) and stop. -/
def deliverTargeted (members : List SigClient) (target : String) (raw : String) :
    List SigClient :=
  match members with
  | [] => []
  | c :: rest =>
      if c.peerId = target then
        (match sigTrySend c (.raw raw) with
         | some c' => c'
         | none => c) :: rest
      else c :: deliverTargeted rest target raw

/-- The broadcast case of Hub.Run: deliver the envelope to every room
member other than the sender; a member whose buffer is full is not
delivered to and has its socket closed. -/
def broadcastDeliver (members : List SigClient) (senderCid : Nat) (raw : String) :
    List SigClient :=
  members.map (fun c =>
    if c.cid = senderCid then c
    else
      match sigTrySend c (.raw raw) with
      | some c' => c'
      | none => { c with connClosed := true })

/-- One received envelope as Client.readPump inspects it: the decoded
target_peer_id field (absent, empty, or a peer id) and the raw bytes. -/
structure SigEnvelope where
  targetPeerId : Option String
  raw : String
deriving DecidableEq, Repr

/-- Client.readPump's routing of one received envelope within the
sender's room: a non-empty target_peer_id selects the targeted walk,
anything else goes through the hub broadcast (which also persists the
envelope with type "signal"; the Bool records that persistence). -/
def Client.routeEnvelope (members : List SigClient) (sender : SigClient)
    (env : SigEnvelope) : List SigClient × Bool :=
  match env.targetPeerId with
  | some t =>
      if t ≠ "" then (deliverTargeted members t env.raw, false)
      else (broadcastDeliver members sender.cid env.raw, true)
  | none => (broadcastDeliver members sender.cid env.raw, true)

/-- The register case of Hub.Run: add the client to its room's member map,
then (the map now being non-empty) enqueue a peer_joined notification
naming the new peer on every member whose peerID differs from the new
client's; a full buffer only logs. -/
def hubRegisterRoom (conns : List SigClient) (client : SigClient) :
    List SigClient :=
  let conns1 := conns ++ [client]
  conns1.map (fun c =>
    if c.peerId = client.peerId then c
    else
      match sigTrySend c (.peerJoined client.peerId client.room) with
      | some c' => c'
      | none => c)

/-! ## Message log and history endpoint (internal/storage/sqlite.go,
cmd/messanger/main.go) -/

/-- A row of the messages table. -/
structure StoredMessage where
  room : String
  peerId : String
  timestamp : Int
  msgType : String
  content : String
deriving DecidableEq, Repr

/-- A {peer_id, text, timestamp} object of a /history response. -/
structure OutMsg where
  peerId : String
  text : String
  timestamp : Int
deriving DecidableEq, Repr

/-- Comparison used to realize ORDER BY timestamp ASC. -/
def tsLe (a b : StoredMessage) : Prop := a.timestamp ≤ b.timestamp

instance : DecidableRel tsLe := fun a b => Int.decLe a.timestamp b.timestamp

instance : IsTotal StoredMessage tsLe :=
  ⟨fun a b => Int.le_total a.timestamp b.timestamp⟩

instance : IsTrans StoredMessage tsLe :=
  ⟨fun _ _ _ => Int.le_trans⟩

/-- historyHandler's query: rows of the requested room with
msg_type = 'text' and timestamp strictly greater than since, ordered
ascending by timestamp. -/
def historyQuery (rows : List StoredMessage) (room : String) (since : Int) :
    List StoredMessage :=
  List.insertionSort tsLe
    (rows.filter (fun msg =>
      msg.room = room ∧ msg.msgType = "text" ∧ msg.timestamp > since))

/-- historyHandler: run the query and render each row as a
{peer_id, text, timestamp} object. -/
def historyHandler (rows : List StoredMessage) (room : String) (since : Int) :
    List OutMsg :=
  (historyQuery rows room since).map
    (fun msg => { peerId := msg.peerId, text := msg.content,
                  timestamp := msg.timestamp })

/-! ## Well-formedness predicates for the manager's per-peer state -/

/-- Structural facts a Go map guarantees: distinct keys, and (how the
manager uses it) every stored connection sits under its own Type(). -/
def PeerConnection.wf (pc : PeerConnection) : Prop :=
  (pc.connections.map Prod.fst).Nodup ∧
  ∀ p ∈ pc.connections, p.2.ctype = p.1

/-- The exclusive-primary invariant: the primary, when present, is also
stored in the per-type map under its own type.  (That a PeerConnection
designates at most one primary is structural: `primary` is a single
field.) -/
def PeerConnection.exclusivePrimary (pc : PeerConnection) : Prop :=
  ∀ c, pc.primary = some c → pc.connections.lookup c.ctype = some c

/-! ## Concrete states used by witnesses and counterexamples -/

/-- A freshly established HTTP polling connection state, as startPolling
leaves it after a successful endpoint probe. -/
def freshPollConn : PollConnState :=
  { status := .connected, pollErrors := 0, lastMsgTime := 0, room := "peer-p",
    messages := [], messagesClosed := false, closeChanClosed := false,
    latencyMs := 0, quality := 60 }

/-- A freshly established WebSocket direct connection state. -/
def freshWSDirect : WSDirectConnState :=
  { wsPresent := true, status := .connected, messages := [],
    messagesClosed := false }

/-- A connected STUN-media connection, as the manager sees it. -/
def connStunOk : Conn :=
  { id := 1, ctype := .webrtcStun, status := .connected, quality := 90,
    latencyMs := 10, sendOk := true }

/-- A connected polling connection, as the manager sees it. -/
def connPollOk : Conn :=
  { id := 2, ctype := .httpPolling, status := .connected, quality := 60,
    latencyMs := 50, sendOk := true }

/-- A peer entry whose primary is the STUN connection. -/
def pcWithPrimary : PeerConnection :=
  { peerId := "p", connections := [(.webrtcStun, connStunOk)],
    primary := some connStunOk, isConnected := true,
    latencyHistory := [], qualityHistory := [] }

/-- An empty manager. -/
def mgr0 : ManagerState := { connections := [] }

/-- The empty peer entry ConnectToPeer "p" creates. -/
def emptyPcP : PeerConnection :=
  { peerId := "p", connections := [], primary := none, isConnected := false,
    latencyHistory := [], qualityHistory := [] }

/-- The manager right after ConnectToPeer "p": one empty peer entry. -/
def mgrP : ManagerState := { connections := [("p", emptyPcP)] }

/-- A manager with one peer entry whose primary is live. -/
def mgrOne : ManagerState := { connections := [("p", pcWithPrimary)] }

/-- Three stored rows used to exercise the history endpoint. -/
def histRows : List StoredMessage :=
  [{ room := "r", peerId := "a", timestamp := 10, msgType := "text",
     content := "hi" },
   { room := "r", peerId := "b", timestamp := 5, msgType := "signal",
     content := "sdp" },
   { room := "r", peerId := "c", timestamp := 3, msgType := "text",
     content := "old" }]

/-- A placeholder message filling the polling inbound buffer. -/
def dummyMsg : Message :=
  { from_ := "x", to_ := "", type := "chat", data := "d", timestamp := 1 }

/-- A polling connection whose inbound buffer is full. -/
def fullPollConn : PollConnState :=
  { freshPollConn with messages := List.replicate 100 dummyMsg }

/-- A polling connection whose inbound buffer has exactly one free
slot. -/
def nearFullPollConn : PollConnState :=
  { freshPollConn with messages := List.replicate 99 dummyMsg }

/-- Signaling clients A, B, C sharing room "r". -/
def clientA : SigClient :=
  { cid := 1, peerId := "A", room := "r", sendQueue := [], connClosed := false }

def clientB : SigClient :=
  { cid := 2, peerId := "B", room := "r", sendQueue := [], connClosed := false }

def clientC : SigClient :=
  { cid := 3, peerId := "C", room := "r", sendQueue := [], connClosed := false }

/-! # Theorems -/

/-! ## C6 — relayed-media quality mapping -/

/-- C6 counterexample: at a measured latency of 60 ms the code recomputes
quality 80, while the claim's table row (≤100 ms gives 70) demands 70, so
the claimed mapping is false at this input. -/
theorem turn_quality_table_counterexample :
    (WebRTCTURNConnection.handlePong
        { status := .connected, latencyNs := 0, quality := 75 }
        60000000 0).quality = 80 ∧
    specTurnQualityOfLatency 60 = 70 ∧
    (WebRTCTURNConnection.handlePong
        { status := .connected, latencyNs := 0, quality := 75 }
        60000000 0).quality ≠ specTurnQualityOfLatency 60 := by
  refine ⟨rfl, rfl, ?_⟩
  decide

/-- C6 (amended): on a pong echoing timestamp t the connection sets
latency to now − t and recomputes quality from the whole-millisecond
latency by the buckets the code uses: ≤99 ms → 80, ≤199 ms → 70,
≤299 ms → 60, ≤499 ms → 40, otherwise 20. -/
theorem turn_handlePong_quality (c : TURNConnState) (nowNs ts : Int) :
    (WebRTCTURNConnection.handlePong c nowNs ts).latencyNs = nowNs - ts ∧
    (WebRTCTURNConnection.handlePong c nowNs ts).quality =
      amendedTurnQualityOfLatency (Int.tdiv (nowNs - ts) 1000000) := by
  refine ⟨rfl, ?_⟩
  show turnQualityOfLatency (Int.tdiv (nowNs - ts) 1000000) =
    amendedTurnQualityOfLatency (Int.tdiv (nowNs - ts) 1000000)
  unfold turnQualityOfLatency amendedTurnQualityOfLatency
  split_ifs <;> omega

/-! ## C5 — polling failure threshold -/

/-- C5 counterexample: five consecutive poll errors on a fresh connected
polling connection leave the status Connected, not Failed (the code fails
only when the count exceeds 5). -/
theorem polling_five_errors_counterexample :
    (HTTPPollingConnection.recordPollError
      (HTTPPollingConnection.recordPollError
        (HTTPPollingConnection.recordPollError
          (HTTPPollingConnection.recordPollError
            (HTTPPollingConnection.recordPollError freshPollConn))))).status
      = .connected ∧
    (HTTPPollingConnection.recordPollError
      (HTTPPollingConnection.recordPollError
        (HTTPPollingConnection.recordPollError
          (HTTPPollingConnection.recordPollError
            (HTTPPollingConnection.recordPollError freshPollConn))))).status
      ≠ .failed := by
  refine ⟨rfl, ?_⟩
  decide

/-- C5 (amended): starting from a zero error count (fresh, or right after
any successful poll, which resets the count), five consecutive poll
errors leave the status unchanged and the sixth transitions it to
Failed. -/
theorem polling_sixth_error_fails (c : PollConnState)
    (h : c.pollErrors = 0) :
    (HTTPPollingConnection.recordPollError
      (HTTPPollingConnection.recordPollError
        (HTTPPollingConnection.recordPollError
          (HTTPPollingConnection.recordPollError
            (HTTPPollingConnection.recordPollError c))))).status = c.status ∧
    (HTTPPollingConnection.recordPollError
      (HTTPPollingConnection.recordPollError
        (HTTPPollingConnection.recordPollError
          (HTTPPollingConnection.recordPollError
            (HTTPPollingConnection.recordPollError
              (HTTPPollingConnection.recordPollError c)))))).status
      = .failed := by
  obtain ⟨st, pe, lm, rm, ms, mc, cc, lt, q⟩ := c
  simp only [PollConnState.mk.injEq] at h ⊢
  subst h
  simp [HTTPPollingConnection.recordPollError]

/-- Witness for the amended C5 statement at the fresh polling state. -/
theorem polling_sixth_error_fails_witness :
    (HTTPPollingConnection.recordPollError
      (HTTPPollingConnection.recordPollError
        (HTTPPollingConnection.recordPollError
          (HTTPPollingConnection.recordPollError
            (HTTPPollingConnection.recordPollError freshPollConn))))).status
      = freshPollConn.status ∧
    (HTTPPollingConnection.recordPollError
      (HTTPPollingConnection.recordPollError
        (HTTPPollingConnection.recordPollError
          (HTTPPollingConnection.recordPollError
            (HTTPPollingConnection.recordPollError
              (HTTPPollingConnection.recordPollError freshPollConn)))))).status
      = .failed :=
  polling_sixth_error_fails freshPollConn rfl

/-! ## C4 — idempotent close -/

/-- C4: the claim (spec) is right and the code is wrong — a second Close
on a polling or direct-WebSocket connection reaches `close` on an
already-closed Go channel and panics instead of being a no-op; the
claim's after-close clause does hold: after a first Close every send
fails with the NotConnected-equivalent error. -/
theorem double_close_panics :
    ((HTTPPollingConnection.Close freshPollConn).bind
        HTTPPollingConnection.Close = .error .closeOfClosedChannel) ∧
    ((WebSocketDirectConnection.Close freshWSDirect).bind
        WebSocketDirectConnection.Close = .error .closeOfClosedChannel) ∧
    (∀ postOk, (HTTPPollingConnection.Close freshPollConn).map
        (fun c1 => HTTPPollingConnection.Send c1 postOk)
      = .ok .notEstablished) ∧
    (∀ writeOk, (WebSocketDirectConnection.Close freshWSDirect).map
        (fun c1 => WebSocketDirectConnection.Send c1 writeOk)
      = .ok .notEstablished) :=
  ⟨rfl, rfl, fun b => by cases b <;> rfl, fun b => by cases b <;> rfl⟩

/-! ## C3 — send error taxonomy -/

/-- C3: SendMessage returns the NoRoute-class error exactly when no
PeerConnection exists for the peer id, the NotConnected-class error
exactly when the entry exists with a nil primary, and otherwise the
result of Primary.send — no backup is consulted. -/
theorem sendMessage_error_taxonomy (m : ManagerState) (peerId : String) :
    (LayeredConnectionManager.SendMessage m peerId = .noRoute ↔
       m.connections.lookup peerId = none) ∧
    (LayeredConnectionManager.SendMessage m peerId = .notConnected ↔
       ∃ pc, m.connections.lookup peerId = some pc ∧ pc.primary = none) ∧
    (∀ pc primary, m.connections.lookup peerId = some pc →
       pc.primary = some primary →
       LayeredConnectionManager.SendMessage m peerId =
         .primarySend primary.send) := by
  unfold LayeredConnectionManager.SendMessage
  rcases h : m.connections.lookup peerId with _ | pc
  · simp
  · rcases hp : pc.primary with _ | primary
    · simp [hp]
      rintro pc1 pr rfl
      simp [hp]
    · simp [hp]
      rintro pc1 pr1 rfl hpr
      rw [hp] at hpr
      cases hpr
      rfl

/-- Witness for C3 at a one-peer manager with a live primary. -/
theorem sendMessage_error_taxonomy_witness :
    LayeredConnectionManager.SendMessage mgrOne "p" =
      .primarySend connStunOk.send :=
  (sendMessage_error_taxonomy mgrOne "p").2.2 pcWithPrimary connStunOk
    (by decide) rfl

/-! ## C2 — total-failure cleanup -/

/-- The collection loop is the identity when every outcome is a
failure. -/
theorem foldl_collectStep_failures (l : List AttemptOutcome)
    (h : ∀ o ∈ l, o = .failure)
    (acc : PeerConnection × Option Conn × List Event) :
    l.foldl collectStep acc = acc := by
  induction l generalizing acc with
  | nil => rfl
  | cons o rest ih =>
      have ho : o = .failure := h o (List.mem_cons_self o rest)
      subst ho
      exact ih (fun x hx => h x (List.mem_cons_of_mem _ hx)) acc

/-- Looking up a key after filtering out all pairs with that key finds
nothing. -/
theorem lookup_filter_ne {α β : Type} [DecidableEq α]
    (l : List (α × β)) (k : α) :
    (l.filter fun p => p.1 ≠ k).lookup k = none := by
  induction l with
  | nil => rfl
  | cons p rest ih =>
      rcases p with ⟨a, b⟩
      by_cases hp : a = k
      · have hd : (decide ((a, b).1 ≠ k)) = false := by simp [hp]
        rw [List.filter_cons, hd]
        simpa using ih
      · have hd : (decide ((a, b).1 ≠ k)) = true := by simp [hp]
        rw [List.filter_cons, hd]
        simp only [if_true]
        have hk : (k == a) = false :=
          beq_eq_false_iff_ne.mpr (fun h => hp h.symm)
        simp only [List.lookup, hk]
        exact ih

/-- C2 counterexample: with an existing entry for peer "p" and every
factory attempt failing, the supervisor removes the entry and fires NO
callback — the event list is empty, so on_disconnect does not fire
exactly once as claimed — and a subsequent ConnectToPeer succeeds. -/
theorem total_failure_counterexample :
    (LayeredConnectionManager.attemptConnections mgrP "p"
        [.failure, .failure]).2 = [] ∧
    (∀ t, Event.onDisconnect "p" t ∉
        (LayeredConnectionManager.attemptConnections mgrP "p"
          [.failure, .failure]).2) ∧
    (LayeredConnectionManager.attemptConnections mgrP "p"
        [.failure, .failure]).1.connections.lookup "p" = none ∧
    LayeredConnectionManager.ConnectToPeer
      (LayeredConnectionManager.attemptConnections mgrP "p"
        [.failure, .failure]).1 "p" = .ok mgrP := by
  refine ⟨rfl, ?_, rfl, rfl⟩
  intro t
  show Event.onDisconnect "p" t ∉ ([] : List Event)
  simp

/-- C2 (amended): if a PeerConnection entry exists and every factory
outcome is a failure, the supervisor removes the entry from the map,
fires no callback (on_disconnect does not fire), and a subsequent
ConnectToPeer with the same peer id succeeds. -/
theorem total_failure_removes_entry (m : ManagerState) (peerId : String)
    (pc : PeerConnection) (outcomes : List AttemptOutcome)
    (hpc : m.connections.lookup peerId = some pc)
    (hall : ∀ o ∈ outcomes, o = .failure) :
    (LayeredConnectionManager.attemptConnections m peerId outcomes).2 = [] ∧
    (LayeredConnectionManager.attemptConnections m peerId
        outcomes).1.connections.lookup peerId = none ∧
    ∃ m', LayeredConnectionManager.ConnectToPeer
        (LayeredConnectionManager.attemptConnections m peerId outcomes).1
        peerId = .ok m' := by
  have hcollect : collectOutcomes pc outcomes = (pc, none, []) :=
    foldl_collectStep_failures outcomes hall (pc, none, [])
  have hrm : (LayeredConnectionManager.removeConnection m
      peerId).connections.lookup peerId = none := by
    show (m.connections.filter fun p => p.1 ≠ peerId).lookup peerId = none
    exact lookup_filter_ne m.connections peerId
  unfold LayeredConnectionManager.attemptConnections
  rw [hpc]
  simp only [hcollect]
  refine ⟨by trivial, hrm, ?_⟩
  unfold LayeredConnectionManager.ConnectToPeer
  rw [hrm]
  exact ⟨_, rfl⟩

/-! ## C1 — exclusive-primary invariant -/

/-- Setting a key finds that key's new value. -/
theorem lookup_mapSet_self (m : List (ConnectionType × Conn))
    (k : ConnectionType) (v : Conn) : (mapSet m k v).lookup k = some v := by
  induction m with
  | nil => simp [mapSet, List.lookup]
  | cons p rest ih =>
      rcases p with ⟨k0, v0⟩
      by_cases h : k0 = k
      · simp [mapSet, h, List.lookup]
      · have hk : (k == k0) = false :=
          beq_eq_false_iff_ne.mpr (fun hh => h hh.symm)
        simp only [mapSet, if_neg h, List.lookup, hk]
        exact ih

/-- Setting a key leaves lookups of other keys unchanged. -/
theorem lookup_mapSet_ne (m : List (ConnectionType × Conn))
    (k k' : ConnectionType) (v : Conn) (h : k' ≠ k) :
    (mapSet m k v).lookup k' = m.lookup k' := by
  induction m with
  | nil =>
      have hk : (k' == k) = false := beq_eq_false_iff_ne.mpr h
      simp [mapSet, List.lookup, hk]
  | cons p rest ih =>
      rcases p with ⟨k0, v0⟩
      by_cases h0 : k0 = k
      · subst h0
        have hk : (k' == k0) = false := beq_eq_false_iff_ne.mpr h
        simp [mapSet, List.lookup, hk]
      · simp only [mapSet, if_neg h0, List.lookup]
        rcases hbe : (k' == k0) with _ | _
        · exact ih
        · rfl

/-- A pair of the updated map is an old pair or the new binding. -/
theorem mem_mapSet (m : List (ConnectionType × Conn))
    (k : ConnectionType) (v : Conn) (p : ConnectionType × Conn)
    (hp : p ∈ mapSet m k v) : p ∈ m ∨ p = (k, v) := by
  induction m with
  | nil => simpa [mapSet] using hp
  | cons q rest ih =>
      rcases q with ⟨k0, v0⟩
      by_cases h : k0 = k
      · rw [mapSet, if_pos h] at hp
        rcases List.mem_cons.mp hp with h1 | h1
        · exact Or.inr h1
        · exact Or.inl (List.mem_cons_of_mem _ h1)
      · rw [mapSet, if_neg h] at hp
        rcases List.mem_cons.mp hp with h1 | h1
        · exact Or.inl (h1 ▸ List.mem_cons_self _ _)
        · rcases ih h1 with h2 | h2
          · exact Or.inl (List.mem_cons_of_mem _ h2)
          · exact Or.inr h2

/-- The keys of the updated map are the old keys possibly with `k`
added. -/
theorem mem_keys_mapSet (m : List (ConnectionType × Conn))
    (k a : ConnectionType) (v : Conn) :
    a ∈ (mapSet m k v).map Prod.fst ↔ a ∈ m.map Prod.fst ∨ a = k := by
  induction m with
  | nil => simp [mapSet]
  | cons q rest ih =>
      rcases q with ⟨k0, v0⟩
      by_cases h : k0 = k
      · subst h
        rw [mapSet, if_pos rfl]
        simp only [List.map_cons, List.mem_cons]
        tauto
      · rw [mapSet, if_neg h]
        simp only [List.map_cons, List.mem_cons, ih]
        tauto

/-- The map update preserves distinctness of keys. -/
theorem nodup_keys_mapSet (m : List (ConnectionType × Conn))
    (k : ConnectionType) (v : Conn) (h : (m.map Prod.fst).Nodup) :
    ((mapSet m k v).map Prod.fst).Nodup := by
  induction m with
  | nil => simp [mapSet]
  | cons q rest ih =>
      rcases q with ⟨k0, v0⟩
      rw [List.map_cons, List.nodup_cons] at h
      by_cases hk : k0 = k
      · subst hk
        rw [mapSet, if_pos rfl, List.map_cons, List.nodup_cons]
        exact h
      · rw [mapSet, if_neg hk, List.map_cons, List.nodup_cons]
        refine ⟨?_, ih h.2⟩
        intro hmem
        rcases (mem_keys_mapSet rest k k0 v).mp hmem with h1 | h1
        · exact h.1 h1
        · exact hk h1

/-- Deleting a key keeps only old pairs with other keys. -/
theorem mem_mapDel (m : List (ConnectionType × Conn)) (k : ConnectionType)
    (p : ConnectionType × Conn) (hp : p ∈ mapDel m k) : p ∈ m ∧ p.1 ≠ k := by
  have := List.mem_filter.mp hp
  exact ⟨this.1, by simpa using this.2⟩

/-- Deleting a key preserves distinctness of keys. -/
theorem nodup_keys_mapDel (m : List (ConnectionType × Conn))
    (k : ConnectionType) (h : (m.map Prod.fst).Nodup) :
    ((mapDel m k).map Prod.fst).Nodup :=
  ((List.filter_sublist m).map Prod.fst).nodup h

/-- With distinct keys, a pair of the map is found by lookup. -/
theorem lookup_of_mem_nodup (m : List (ConnectionType × Conn))
    (k : ConnectionType) (c : Conn) (hnd : (m.map Prod.fst).Nodup)
    (hmem : (k, c) ∈ m) : m.lookup k = some c := by
  induction m with
  | nil => cases hmem
  | cons q rest ih =>
      rcases q with ⟨k0, c0⟩
      rw [List.map_cons, List.nodup_cons] at hnd
      rcases List.mem_cons.mp hmem with h1 | h1
      · obtain ⟨hk, hc⟩ := Prod.mk.injEq .. ▸ h1
        subst hk; subst hc
        simp [List.lookup]
      · have hk : k ≠ k0 := by
          intro hkk
          subst hkk
          exact hnd.1 (List.mem_map.mpr ⟨(k, c), h1, rfl⟩)
        have hbe : (k == k0) = false := beq_eq_false_iff_ne.mpr hk
        simp only [List.lookup, hbe]
        exact ih hnd.2 h1

/-- A candidate produced by the backup scan came from the entry list,
under a key other than the primary's, with status Connected. -/
theorem scan_result_mem (t : ConnectionType) (bb : Conn)
    (entries : List (ConnectionType × Conn)) :
    ∀ acc : Int × Option Conn,
      (entries.foldl (scanStep t) acc).2 = some bb →
      acc.2 = some bb ∨
        ∃ k, (k, bb) ∈ entries ∧ k ≠ t ∧ bb.status = .connected := by
  induction entries with
  | nil => intro acc h; exact Or.inl h
  | cons p rest ih =>
      intro acc h
      rcases ih (scanStep t acc p) h with h1 | ⟨k, hk, hkt, hst⟩
      · unfold scanStep at h1
        by_cases hc : p.1 ≠ t ∧ p.2.status = .connected ∧ p.2.quality > acc.1
        · rw [if_pos hc] at h1
          have hb : p.2 = bb := by simpa using h1
          right
          refine ⟨p.1, ?_, hc.1, hb ▸ hc.2.1⟩
          have : (p.1, bb) = p := by rw [← hb]
          exact this ▸ List.mem_cons_self _ _
        · rw [if_neg hc] at h1
          exact Or.inl h1
      · exact Or.inr ⟨k, List.mem_cons_of_mem _ hk, hkt, hst⟩

/-- updateHistories touches only the metric histories. -/
theorem updateHistories_fields (pc : PeerConnection) :
    (updateHistories pc).connections = pc.connections ∧
    (updateHistories pc).primary = pc.primary := by
  unfold updateHistories
  rcases hp : pc.primary with _ | p
  · exact ⟨rfl, hp⟩
  · exact ⟨rfl, rfl⟩

/-- The failover block preserves well-formedness and the
exclusive-primary invariant. -/
theorem failover_preserves (pc : PeerConnection) (prim : Conn)
    (hwf : pc.wf) (hex : pc.exclusivePrimary) :
    (LayeredConnectionManager.failover pc prim).1.wf ∧
    (LayeredConnectionManager.failover pc prim).1.exclusivePrimary := by
  obtain ⟨hnd, hkey⟩ := hwf
  unfold LayeredConnectionManager.failover
  by_cases hst : prim.status ≠ .connected
  · rw [if_pos hst]
    rcases hbb : bestBackupScan pc.connections prim.ctype with _ | bb
    · exact ⟨⟨hnd, hkey⟩, hex⟩
    · rcases scan_result_mem prim.ctype bb pc.connections _ hbb with h1 | h1
      · cases h1
      obtain ⟨k, hkmem, hkt, _⟩ := h1
      have hkeq : bb.ctype = k := hkey (k, bb) hkmem
      have hmemdel : (bb.ctype, bb) ∈ mapDel pc.connections prim.ctype := by
        refine List.mem_filter.mpr ⟨hkeq ▸ hkmem, ?_⟩
        simp only [decide_eq_true_eq]
        exact fun hcontra => hkt (hkeq ▸ hcontra)
      constructor
      · exact ⟨nodup_keys_mapDel _ _ hnd,
               fun p hp => hkey p (mem_mapDel _ _ p hp).1⟩
      · intro c hc
        have hcbb : bb = c := by simpa using hc
        subst hcbb
        exact lookup_of_mem_nodup _ _ _ (nodup_keys_mapDel _ _ hnd) hmemdel
  · rw [if_neg hst]
    exact ⟨⟨hnd, hkey⟩, hex⟩

/-- C1: the exclusive-primary invariant — the primary, when present, is
stored in the backup map under its own type (and `primary` being a single
field, no other connection is designated primary) — together with the
map's well-formedness, is preserved by setPrimaryConnection, by
addBackupConnection (for a backup whose type is not the primary's type,
which holds in every run since each registered factory produces a
distinct type), and by the health-monitor step
checkConnectionHealth. -/
theorem exclusive_primary_preserved (pc : PeerConnection) (conn : Conn)
    (hwf : pc.wf) (hex : pc.exclusivePrimary) :
    ((LayeredConnectionManager.setPrimaryConnection pc conn).1.wf ∧
     (LayeredConnectionManager.setPrimaryConnection pc conn).1.exclusivePrimary) ∧
    ((∀ p, pc.primary = some p → conn.ctype ≠ p.ctype) →
       ((LayeredConnectionManager.addBackupConnection pc conn).wf ∧
        (LayeredConnectionManager.addBackupConnection pc conn).exclusivePrimary)) ∧
    ((LayeredConnectionManager.checkConnectionHealth pc).1.wf ∧
     (LayeredConnectionManager.checkConnectionHealth pc).1.exclusivePrimary) := by
  obtain ⟨hnd, hkey⟩ := hwf
  have hwfSet : (mapSet pc.connections conn.ctype conn |>.map Prod.fst).Nodup ∧
      ∀ p ∈ mapSet pc.connections conn.ctype conn, p.2.ctype = p.1 := by
    refine ⟨nodup_keys_mapSet _ _ _ hnd, fun p hp => ?_⟩
    rcases mem_mapSet _ _ _ p hp with h1 | h1
    · exact hkey p h1
    · subst h1; rfl
  refine ⟨⟨hwfSet, ?_⟩, ?_, ?_⟩
  · intro c hc
    have hcc : some conn = some c := hc
    injection hcc with h3
    subst h3
    show (mapSet pc.connections conn.ctype conn).lookup conn.ctype = some conn
    exact lookup_mapSet_self _ _ _
  · intro hdist
    refine ⟨hwfSet, ?_⟩
    intro c hc
    have hpm : pc.primary = some c := hc
    have hne : c.ctype ≠ conn.ctype := fun h => hdist c hpm h.symm
    show (mapSet pc.connections conn.ctype conn).lookup c.ctype = some c
    rw [lookup_mapSet_ne _ _ _ _ hne]
    exact hex c hpm
  · unfold LayeredConnectionManager.checkConnectionHealth
    rcases hpm : pc.primary with _ | prim
    · exact ⟨⟨hnd, hkey⟩, hex⟩
    · have hfp := failover_preserves pc prim ⟨hnd, hkey⟩ hex
      have hupd := updateHistories_fields
        (LayeredConnectionManager.failover pc prim).1
      constructor
      · show ((updateHistories _).connections.map Prod.fst).Nodup ∧ _
        rw [hupd.1]
        exact hfp.1
      · intro c hc
        rw [hupd.2] at hc
        show (updateHistories _).connections.lookup c.ctype = some c
        rw [hupd.1]
        exact hfp.2 c hc

/-- Witness for C1: adding a polling backup to a peer whose primary is
the STUN connection preserves the invariant. -/
theorem exclusive_primary_preserved_witness :
    (LayeredConnectionManager.addBackupConnection pcWithPrimary
        connPollOk).wf ∧
    (LayeredConnectionManager.addBackupConnection pcWithPrimary
        connPollOk).exclusivePrimary :=
  (exclusive_primary_preserved pcWithPrimary connPollOk
    (by constructor <;> decide)
    (by
      intro c hc
      have h2 : some connStunOk = some c := hc
      injection h2 with h3
      subst h3
      decide)).2.1
    (by
      intro p hp
      have h2 : some connStunOk = some p := hp
      injection h2 with h3
      subst h3
      decide)

/-- Witness for the amended C2 statement: one entry, one failed
attempt. -/
theorem total_failure_removes_entry_witness :
    (LayeredConnectionManager.attemptConnections mgrP "p" [.failure]).2
      = [] ∧
    (LayeredConnectionManager.attemptConnections mgrP "p"
        [.failure]).1.connections.lookup "p" = none ∧
    ∃ m', LayeredConnectionManager.ConnectToPeer
        (LayeredConnectionManager.attemptConnections mgrP "p" [.failure]).1
        "p" = .ok m' :=
  total_failure_removes_entry mgrP "p" emptyPcP [.failure]
    (by decide) (by decide)

/-! ## C7 — targeted signaling relay -/

/-- The targeted update map is the identity on a list with no matching
peer id. -/
theorem map_target_update_id (l : List SigClient) (t raw : String)
    (h : ∀ c ∈ l, c.peerId ≠ t) :
    l.map (fun c =>
      if c.peerId = t
      then { c with sendQueue := c.sendQueue ++ [Payload.raw raw] }
      else c) = l := by
  induction l with
  | nil => rfl
  | cons c rest ih =>
      rw [List.map_cons, if_neg (h c (List.mem_cons_self c rest)),
          ih (fun x hx => h x (List.mem_cons_of_mem _ hx))]

/-- With distinct peer ids and room in the target's buffer, the targeted
walk appends the raw envelope to the (unique) match and touches nobody
else. -/
theorem deliverTargeted_eq_map (members : List SigClient) (t raw : String)
    (hnodup : members.Pairwise fun a b => a.peerId ≠ b.peerId)
    (hcap : ∀ c ∈ members, c.peerId = t → c.sendQueue.length < 256) :
    deliverTargeted members t raw =
      members.map (fun c =>
        if c.peerId = t
        then { c with sendQueue := c.sendQueue ++ [Payload.raw raw] }
        else c) := by
  induction members with
  | nil => rfl
  | cons c rest ih =>
      rw [List.pairwise_cons] at hnodup
      by_cases hc : c.peerId = t
      · have hlen : c.sendQueue.length < 256 :=
          hcap c (List.mem_cons_self c rest) hc
        have hsend : sigTrySend c (.raw raw) =
            some { c with sendQueue := c.sendQueue ++ [Payload.raw raw] } := by
          unfold sigTrySend
          rw [if_pos hlen]
        rw [deliverTargeted, if_pos hc, hsend, List.map_cons, if_pos hc]
        have hrest : ∀ b ∈ rest, b.peerId ≠ t := by
          intro b hb hbt
          exact (hnodup.1 b hb) (hc.trans hbt.symm)
        rw [map_target_update_id rest t raw hrest]
      · rw [deliverTargeted, if_neg hc, List.map_cons, if_neg hc]
        congr 1
        exact ih hnodup.2 (fun x hx => hcap x (List.mem_cons_of_mem _ hx))

/-- C7: an envelope carrying a non-empty target_peer_id is routed through
the targeted walk: the raw envelope lands only on the member whose peer
id equals the target (its buffer having room), every other member of the
room — the sender included — receives nothing for it, and the envelope is
not persisted through the broadcast path. -/
theorem targeted_relay (members : List SigClient) (sender : SigClient)
    (t raw : String) (ht : t ≠ "")
    (hnodup : members.Pairwise fun a b => a.peerId ≠ b.peerId)
    (hcap : ∀ c ∈ members, c.peerId = t → c.sendQueue.length < 256) :
    Client.routeEnvelope members sender { targetPeerId := some t, raw := raw } =
      (members.map (fun c =>
         if c.peerId = t
         then { c with sendQueue := c.sendQueue ++ [Payload.raw raw] }
         else c), false) := by
  unfold Client.routeEnvelope
  dsimp only
  rw [if_pos ht, deliverTargeted_eq_map members t raw hnodup hcap]

/-- Witness for C7: in room {A, B, C}, A's envelope targeted at B reaches
only B. -/
theorem targeted_relay_witness :
    Client.routeEnvelope [clientA, clientB, clientC] clientA
        { targetPeerId := some "B", raw := "offer" } =
      ([clientA,
        { cid := 2, peerId := "B", room := "r",
          sendQueue := [Payload.raw "offer"], connClosed := false },
        clientC], false) := by
  rw [targeted_relay [clientA, clientB, clientC] clientA "B" "offer"
    (by decide) (by decide) (by decide)]
  decide

/-! ## C8 — join notification -/

/-- Notifying a list of members with distinct peer ids and room in their
buffers appends exactly one peer_joined to each. -/
theorem map_notify_eq (conns : List SigClient) (pid room : String)
    (hnew : ∀ c ∈ conns, c.peerId ≠ pid)
    (hcap : ∀ c ∈ conns, c.sendQueue.length < 256) :
    conns.map (fun c =>
      if c.peerId = pid then c
      else
        match sigTrySend c (.peerJoined pid room) with
        | some c' => c'
        | none => c) =
    conns.map (fun c =>
      { c with sendQueue := c.sendQueue ++ [Payload.peerJoined pid room] }) := by
  induction conns with
  | nil => rfl
  | cons c rest ih =>
      have hsend : sigTrySend c (.peerJoined pid room) =
          some { c with
                   sendQueue := c.sendQueue ++ [Payload.peerJoined pid room] } := by
        unfold sigTrySend
        rw [if_pos (hcap c (List.mem_cons_self c rest))]
      rw [List.map_cons, List.map_cons,
          if_neg (hnew c (List.mem_cons_self c rest)), hsend]
      congr 1
      exact ih (fun x hx => hnew x (List.mem_cons_of_mem _ hx))
        (fun x hx => hcap x (List.mem_cons_of_mem _ hx))

/-- C8: registering a client in a room delivers exactly one peer_joined
notification naming the new peer to every pre-existing member (their
peer ids being distinct and buffers having room), and the new client —
already in the member map when the loop runs, but skipped by the peer-id
check — receives nothing. -/
theorem join_notification (conns : List SigClient) (client : SigClient)
    (hnew : ∀ c ∈ conns, c.peerId ≠ client.peerId)
    (hcap : ∀ c ∈ conns, c.sendQueue.length < 256) :
    hubRegisterRoom conns client =
      conns.map (fun c =>
        { c with sendQueue :=
            c.sendQueue ++ [Payload.peerJoined client.peerId client.room] })
      ++ [client] := by
  unfold hubRegisterRoom
  rw [List.map_append]
  congr 1
  · exact map_notify_eq conns client.peerId client.room hnew hcap
  · simp

/-- Witness for C8: C joins a room holding A and B; A and B each receive
one peer_joined naming C; C's queue stays empty. -/
theorem join_notification_witness :
    hubRegisterRoom [clientA, clientB] clientC =
      [{ cid := 1, peerId := "A", room := "r",
         sendQueue := [Payload.peerJoined "C" "r"], connClosed := false },
       { cid := 2, peerId := "B", room := "r",
         sendQueue := [Payload.peerJoined "C" "r"], connClosed := false },
       clientC] := by
  rw [join_notification [clientA, clientB] clientC (by decide) (by decide)]
  decide

/-! ## C9 — history retrieval -/

/-- C9: /history?room=r&since=s returns exactly the stored rows of room r
carrying the tag chat messages are stored under (msg_type "text") with
timestamp strictly greater than s — nothing with timestamp ≤ s — each
rendered as a peer_id/text/timestamp object, in ascending timestamp
order. -/
theorem history_endpoint_correct (rows : List StoredMessage) (room : String)
    (since : Int) :
    (∀ o ∈ historyHandler rows room since, o.timestamp > since) ∧
    List.Pairwise (fun a b : OutMsg => a.timestamp ≤ b.timestamp)
      (historyHandler rows room since) ∧
    (historyHandler rows room since).Perm
      ((rows.filter (fun msg =>
          msg.room = room ∧ msg.msgType = "text" ∧ msg.timestamp > since)).map
        (fun msg => { peerId := msg.peerId, text := msg.content,
                      timestamp := msg.timestamp })) := by
  refine ⟨?_, ?_, ?_⟩
  · intro o ho
    unfold historyHandler historyQuery at ho
    rcases List.mem_map.mp ho with ⟨msg, hmsg, rfl⟩
    have hmem := (List.mem_insertionSort tsLe).mp hmsg
    have hp := (List.mem_filter.mp hmem).2
    simp only [decide_eq_true_eq] at hp
    exact hp.2.2
  · unfold historyHandler historyQuery
    apply List.pairwise_map.mpr
    exact (List.sorted_insertionSort tsLe _).imp (fun h => h)
  · unfold historyHandler historyQuery
    exact (List.perm_insertionSort tsLe _).map _

/-- Witness for C9 at three stored rows: only the "text" row newer than
the cursor comes back. -/
theorem history_endpoint_correct_witness :
    (OutMsg.mk "a" "hi" 10).timestamp > 4 ∧
    historyHandler histRows "r" 4 = [OutMsg.mk "a" "hi" 10] :=
  ⟨(history_endpoint_correct histRows "r" 4).1 (OutMsg.mk "a" "hi" 10)
    (by decide), by decide⟩

/-! ## C10 — polling cursor tracks delivered messages -/

/-- One entry step moves the cursor either nowhere or exactly to the
entry's timestamp, and in the latter case the entry's message was
enqueued. -/
theorem processEntry_cursor (snap : Int) (s : PollConnState) (e : PolledEntry) :
    s.lastMsgTime ≤ (HTTPPollingConnection.processEntry snap s e).lastMsgTime ∧
    ((HTTPPollingConnection.processEntry snap s e).lastMsgTime = s.lastMsgTime ∨
     ((HTTPPollingConnection.processEntry snap s e).lastMsgTime = e.timestamp ∧
      mkChatMessage e ∈ (HTTPPollingConnection.processEntry snap s e).messages)) := by
  unfold HTTPPollingConnection.processEntry
  by_cases h : e.timestamp > snap
  · rw [if_pos h]
    rcases htry : tryEnqueue s.messages (mkChatMessage e) with _ | buf
    · exact ⟨le_refl _, Or.inl rfl⟩
    · unfold tryEnqueue at htry
      by_cases hlen : s.messages.length < 100
      · rw [if_pos hlen] at htry
        have hbuf : s.messages ++ [mkChatMessage e] = buf := by
          injection htry
        by_cases h2 : e.timestamp > s.lastMsgTime
        · refine ⟨?_, Or.inr ⟨?_, ?_⟩⟩
          · show s.lastMsgTime ≤ if e.timestamp > s.lastMsgTime then _ else _
            rw [if_pos h2]
            exact le_of_lt h2
          · show (if e.timestamp > s.lastMsgTime then e.timestamp
                  else s.lastMsgTime) = e.timestamp
            rw [if_pos h2]
          · show mkChatMessage e ∈ buf
            rw [← hbuf]
            exact List.mem_append_right _ (List.mem_singleton.mpr rfl)
        · refine ⟨?_, Or.inl ?_⟩
          · show s.lastMsgTime ≤ if e.timestamp > s.lastMsgTime then _ else _
            rw [if_neg h2]
          · show (if e.timestamp > s.lastMsgTime then e.timestamp
                  else s.lastMsgTime) = s.lastMsgTime
            rw [if_neg h2]
      · rw [if_neg hlen] at htry
        cases htry
  · rw [if_neg h]
    exact ⟨le_refl _, Or.inl rfl⟩

/-- Messages already in the buffer survive the whole entry loop. -/
theorem foldl_processEntry_messages_mono (snap : Int) (l : List PolledEntry) :
    ∀ (s : PollConnState) (m : Message), m ∈ s.messages →
      m ∈ (l.foldl (HTTPPollingConnection.processEntry snap) s).messages := by
  induction l with
  | nil => intro s m hm; exact hm
  | cons e rest ih =>
      intro s m hm
      apply ih
      unfold HTTPPollingConnection.processEntry
      by_cases h : e.timestamp > snap
      · rw [if_pos h]
        rcases htry : tryEnqueue s.messages (mkChatMessage e) with _ | buf
        · exact hm
        · unfold tryEnqueue at htry
          by_cases hlen : s.messages.length < 100
          · rw [if_pos hlen] at htry
            have hbuf : s.messages ++ [mkChatMessage e] = buf := by
              injection htry
            show m ∈ buf
            rw [← hbuf]
            exact List.mem_append_left _ hm
          · rw [if_neg hlen] at htry
            cases htry
      · rw [if_neg h]
        exact hm

/-- The since-cursor never decreases over the entry loop. -/
theorem foldl_processEntry_cursor_mono (snap : Int) (l : List PolledEntry) :
    ∀ s : PollConnState,
      s.lastMsgTime ≤
        (l.foldl (HTTPPollingConnection.processEntry snap) s).lastMsgTime := by
  induction l with
  | nil => intro s; exact le_refl _
  | cons e rest ih =>
      intro s
      exact le_trans (processEntry_cursor snap s e).1
        (ih (HTTPPollingConnection.processEntry snap s e))

/-- After the entry loop the cursor is unchanged or equals the timestamp
of some processed entry whose message sits in the buffer. -/
theorem foldl_processEntry_cursor_src (snap : Int) (l : List PolledEntry) :
    ∀ s : PollConnState,
      (l.foldl (HTTPPollingConnection.processEntry snap) s).lastMsgTime
          = s.lastMsgTime ∨
      ∃ e ∈ l,
        e.timestamp =
          (l.foldl (HTTPPollingConnection.processEntry snap) s).lastMsgTime ∧
        mkChatMessage e ∈
          (l.foldl (HTTPPollingConnection.processEntry snap) s).messages := by
  induction l with
  | nil => intro s; exact Or.inl rfl
  | cons e rest ih =>
      intro s
      rcases ih (HTTPPollingConnection.processEntry snap s e) with h1 | h1
      · rcases (processEntry_cursor snap s e).2 with h2 | ⟨h2, h3⟩
        · exact Or.inl (by rw [List.foldl_cons, h1, h2])
        · refine Or.inr ⟨e, List.mem_cons_self e rest, ?_, ?_⟩
          · rw [List.foldl_cons, h1, h2]
          · exact foldl_processEntry_messages_mono snap rest _ _ h3
      · obtain ⟨a, ha, hts, hmem⟩ := h1
        exact Or.inr ⟨a, List.mem_cons_of_mem _ ha, hts, hmem⟩

/-- With a full buffer the entry loop is the identity. -/
theorem foldl_processEntry_full (snap : Int) (l : List PolledEntry) :
    ∀ s : PollConnState, 100 ≤ s.messages.length →
      l.foldl (HTTPPollingConnection.processEntry snap) s = s := by
  induction l with
  | nil => intro s _; rfl
  | cons e rest ih =>
      intro s hs
      have hstep : HTTPPollingConnection.processEntry snap s e = s := by
        unfold HTTPPollingConnection.processEntry
        by_cases h : e.timestamp > snap
        · rw [if_pos h]
          have htry : tryEnqueue s.messages (mkChatMessage e) = none := by
            unfold tryEnqueue
            rw [if_neg (by omega)]
          rw [htry]
        · rw [if_neg h]
      rw [List.foldl_cons, hstep]
      exact ih s hs

/-- A strictly-ascending batch entry that passed the since filter but
whose message is absent from the final buffer was dropped by a full
buffer, and the cursor never passes its timestamp. -/
theorem foldl_processEntry_dropped (snap : Int) (l : List PolledEntry) :
    ∀ (s : PollConnState) (e : PolledEntry),
      l.Pairwise (fun a b => a.timestamp < b.timestamp) → e ∈ l →
      e.timestamp > snap → s.lastMsgTime < e.timestamp →
      mkChatMessage e ∉
        (l.foldl (HTTPPollingConnection.processEntry snap) s).messages →
      (l.foldl (HTTPPollingConnection.processEntry snap) s).lastMsgTime
        < e.timestamp := by
  induction l with
  | nil => intro s e _ he; cases he
  | cons c rest ih =>
      intro s e hpw he hesnap hcur hdrop
      rw [List.pairwise_cons] at hpw
      rw [List.foldl_cons] at hdrop ⊢
      rcases List.mem_cons.mp he with rfl | he'
      · rcases htry : tryEnqueue s.messages (mkChatMessage e) with _ | buf
        · have hfull : 100 ≤ s.messages.length := by
            unfold tryEnqueue at htry
            by_cases hlen : s.messages.length < 100
            · rw [if_pos hlen] at htry; cases htry
            · omega
          have hstep : HTTPPollingConnection.processEntry snap s e = s := by
            unfold HTTPPollingConnection.processEntry
            rw [if_pos hesnap, htry]
          rw [hstep] at hdrop ⊢
          rw [foldl_processEntry_full snap rest s hfull]
          exact hcur
        · exfalso
          apply hdrop
          apply foldl_processEntry_messages_mono
          have hbuf : s.messages ++ [mkChatMessage e] = buf := by
            unfold tryEnqueue at htry
            by_cases hlen : s.messages.length < 100
            · rw [if_pos hlen] at htry; injection htry
            · rw [if_neg hlen] at htry; cases htry
          have hstep :
              (HTTPPollingConnection.processEntry snap s e).messages = buf := by
            unfold HTTPPollingConnection.processEntry
            rw [if_pos hesnap, htry]
          rw [hstep, ← hbuf]
          exact List.mem_append_right _ (List.mem_singleton.mpr rfl)
      · have hlt : c.timestamp < e.timestamp := hpw.1 e he'
        have hcur' :
            (HTTPPollingConnection.processEntry snap s c).lastMsgTime
              < e.timestamp := by
          rcases (processEntry_cursor snap s c).2 with h2 | ⟨h2, _⟩
          · rw [h2]; exact hcur
          · rw [h2]; exact hlt
        exact ih _ e hpw.2 he' hesnap hcur' hdrop

/-- C10 counterexample: with one free buffer slot and a batch of two
entries tied at timestamp 5 (reachable: /history orders only weakly by
unix-second timestamps), the first entry is enqueued and advances the
cursor to 5, the second is dropped by the now-full buffer, and the final
cursor EQUALS the dropped entry's timestamp — not strictly below it — so
the next poll's strict timestamp-greater-than-since filter never returns
the dropped entry: it is silently skipped, refuting the claim's
requested-again-on-the-next-poll clause. -/
theorem polling_cursor_tie_counterexample :
    mkChatMessage (PolledEntry.mk "r" "y" 5) ∉
      (HTTPPollingConnection.poll 2000 nearFullPollConn
        (.ok 0 [PolledEntry.mk "q" "x" 5, PolledEntry.mk "r" "y" 5])).messages ∧
    (HTTPPollingConnection.poll 2000 nearFullPollConn
        (.ok 0 [PolledEntry.mk "q" "x" 5, PolledEntry.mk "r" "y" 5])).lastMsgTime
      = (PolledEntry.mk "r" "y" 5).timestamp ∧
    ¬ ((HTTPPollingConnection.poll 2000 nearFullPollConn
        (.ok 0 [PolledEntry.mk "q" "x" 5, PolledEntry.mk "r" "y" 5])).lastMsgTime
        < (PolledEntry.mk "r" "y" 5).timestamp) := by
  refine ⟨by decide, by decide, by decide⟩

/-- C10 (amended): across one poll the since-cursor (lastMsgTime) never
decreases (whatever the fetch outcome), and after a successful poll it is
unchanged or equals the timestamp of an entry whose message was actually
enqueued on the inbound channel — the drop itself never advances it.  The
requested-again guarantee holds only for batches with no timestamp ties:
an entry of a strictly ascending batch that passed the since filter but
was dropped by a full inbound buffer stays strictly above the cursor, so
the next poll requests it again; a dropped entry tied with an enqueued
one can instead be silently skipped (see the counterexample). -/
theorem polling_cursor_tracks_delivered (pollRateMs latMs : Int)
    (c : PollConnState) (entries : List PolledEntry) (e : PolledEntry)
    (hsorted : entries.Pairwise fun a b => a.timestamp < b.timestamp)
    (he : e ∈ entries) (hnew : e.timestamp > c.lastMsgTime)
    (hdropped : mkChatMessage e ∉
      (HTTPPollingConnection.poll pollRateMs c (.ok latMs entries)).messages) :
    (∀ fetched, c.lastMsgTime ≤
        (HTTPPollingConnection.poll pollRateMs c fetched).lastMsgTime) ∧
    ((HTTPPollingConnection.poll pollRateMs c
        (.ok latMs entries)).lastMsgTime = c.lastMsgTime ∨
      ∃ a ∈ entries,
        a.timestamp = (HTTPPollingConnection.poll pollRateMs c
            (.ok latMs entries)).lastMsgTime ∧
        mkChatMessage a ∈ (HTTPPollingConnection.poll pollRateMs c
            (.ok latMs entries)).messages) ∧
    (HTTPPollingConnection.poll pollRateMs c
        (.ok latMs entries)).lastMsgTime < e.timestamp := by
  refine ⟨?_, ?_, ?_⟩
  · intro fetched
    rcases fetched with _ | latMs' | ⟨latMs', entries'⟩
    · exact le_refl _
    · exact le_refl _
    · exact foldl_processEntry_cursor_mono c.lastMsgTime entries'
        { c with latencyMs := latMs', pollErrors := 0 }
  · exact foldl_processEntry_cursor_src c.lastMsgTime entries
      { c with latencyMs := latMs, pollErrors := 0 }
  · exact foldl_processEntry_dropped c.lastMsgTime entries
      { c with latencyMs := latMs, pollErrors := 0 } e hsorted he hnew hnew
      hdropped

/-- Witness for C10: a full inbound buffer drops the fetched entry at
timestamp 5 and leaves the cursor at 0, below 5. -/
theorem polling_cursor_tracks_delivered_witness :
    (∀ fetched, fullPollConn.lastMsgTime ≤
        (HTTPPollingConnection.poll 2000 fullPollConn fetched).lastMsgTime) ∧
    ((HTTPPollingConnection.poll 2000 fullPollConn
        (.ok 0 [PolledEntry.mk "q" "x" 5])).lastMsgTime
          = fullPollConn.lastMsgTime ∨
      ∃ a ∈ [PolledEntry.mk "q" "x" 5],
        a.timestamp = (HTTPPollingConnection.poll 2000 fullPollConn
            (.ok 0 [PolledEntry.mk "q" "x" 5])).lastMsgTime ∧
        mkChatMessage a ∈ (HTTPPollingConnection.poll 2000 fullPollConn
            (.ok 0 [PolledEntry.mk "q" "x" 5])).messages) ∧
    (HTTPPollingConnection.poll 2000 fullPollConn
        (.ok 0 [PolledEntry.mk "q" "x" 5])).lastMsgTime
      < (PolledEntry.mk "q" "x" 5).timestamp :=
  polling_cursor_tracks_delivered 2000 0 fullPollConn
    [PolledEntry.mk "q" "x" 5] (PolledEntry.mk "q" "x" 5)
    (by decide) (by decide) (by decide) (by decide)

end EGoat
